import Mathlib

/-!
Verification of the epd7in5 e-paper display driver (Go), shallowly embedded
in Lean 4.  Machine integers are modelled as `Nat` with explicit reduction
modulo `2 ^ 32` (for Go `uint32` arithmetic) or `% 256` (for `byte`) exactly
where the Go code can overflow.  Bitmaps are modelled as a width, a height
and a total pixel function returning 8-bit RGBA channels, matching the
`color.RGBA` images this program feeds to the encoder (origin at `(0, 0)`).
Hardware interaction is modelled as a trace of bus / control-line events.
-/

namespace Epd7in5

/-- An 8-bit-per-channel RGBA color, as Go `color.RGBA`. -/
structure RGBA where
  r : Nat
  g : Nat
  b : Nat
  a : Nat
deriving DecidableEq, Repr

/-- Go `color.RGBA.RGBA()` widens an 8-bit channel to 16 bits:
`r = uint32(c.R); r |= r << 8`. -/
def rgba16 (v : Nat) : Nat := v ||| (v <<< 8)

def ColorBlack : RGBA := ⟨0x00, 0x00, 0x00, 0xff⟩
def ColorWhite : RGBA := ⟨0xff, 0xff, 0xff, 0xff⟩
def ColorYellow : RGBA := ⟨0xff, 0xff, 0x00, 0xff⟩
def ColorRed : RGBA := ⟨0xff, 0x00, 0x00, 0xff⟩
def ColorBlue : RGBA := ⟨0x00, 0x00, 0xff, 0xff⟩
def ColorGreen : RGBA := ⟨0x00, 0xff, 0x00, 0xff⟩

/-- `ColorPalette`: the colors supported by the panel, in declaration order. -/
def ColorPalette : List RGBA :=
  [ColorBlack, ColorWhite, ColorYellow, ColorRed, ColorBlue, ColorGreen]

/-- `ColorPaletteBinary`: the on-wire nibble code for each palette index. -/
def ColorPaletteBinary : List Nat :=
  [0x00, 0x01, 0x02, 0x03, 0x05, 0x06]

/-- Go `image/color.sqDiff` on `uint32`: `d := x - y; return (d * d) >> 2`,
with wrap-around subtraction and multiplication modulo `2 ^ 32`. -/
def sqDiff (x y : Nat) : Nat :=
  let d := (x + 2 ^ 32 - y) % 2 ^ 32
  (d * d % 2 ^ 32) >>> 2

/-- The `uint32` distance accumulated by Go `color.Palette.Index` between a
target color and a palette entry: the sum of the four channel `sqDiff`s on
the 16-bit widened channels. -/
def colorSum (c v : RGBA) : Nat :=
  (sqDiff (rgba16 c.r) (rgba16 v.r) + sqDiff (rgba16 c.g) (rgba16 v.g) +
   sqDiff (rgba16 c.b) (rgba16 v.b) + sqDiff (rgba16 c.a) (rgba16 v.a)) % 2 ^ 32

/-- The loop of Go `color.Palette.Index`: scan the remaining palette entries
`l` starting at position `i`, carrying the best index `ret` and best distance
`best`; return `i` immediately on an exact (distance-zero) match. -/
def indexFrom (c : RGBA) : List RGBA → Nat → Nat → Nat → Nat
  | [], _, ret, _ => ret
  | v :: rest, i, ret, best =>
    if colorSum c v < best then
      (if colorSum c v = 0 then i else indexFrom c rest (i + 1) i (colorSum c v))
    else indexFrom c rest (i + 1) ret best

/-- Go `color.Palette.Index`: nearest palette entry by `sqDiff` distance,
starting from `ret, bestSum := 0, uint32(1<<32-1)`. -/
def paletteIndex (p : List RGBA) (c : RGBA) : Nat :=
  indexFrom c p 0 0 (2 ^ 32 - 1)

/-- A bitmap: width, height, and pixel channels at `(x, y)`. -/
structure Img where
  w : Nat
  h : Nat
  pix : Nat → Nat → RGBA

/-- Panel width in pixels. -/
def EPD_WIDTH : Nat := 800

/-- Panel height in pixels. -/
def EPD_HEIGHT : Nat := 480

/-- `rotateImage90`: rotate 90 degrees clockwise.  In Go the destination is a
`Dy × Dx` image and `dst.Set(bounds.Max.Y-y-1, x, img.At(x, y))`; solving for
the destination coordinates gives `dst(x, y) = img(y, h - 1 - x)`. -/
def rotateImage90 (img : Img) : Img :=
  ⟨img.h, img.w, fun x y => img.pix y (img.h - 1 - x)⟩

/-- `quantizeImage` builds an `image.Paletted` whose `Pix` array holds, in
row-major order, the palette index of each source pixel
(`Paletted.Set` stores `uint8(palette.Index(c))`, and `Palette.Convert`
followed by `Index` is `Index` of the original color since the palette
entries are pairwise distinct).  `quantPix img i` is `Pix[i]`. -/
def quantPix (img : Img) (i : Nat) : Nat :=
  paletteIndex ColorPalette (img.pix (i % img.w) (i / img.w))

/-- One byte of the packed buffer: `buf[idx] = (col1 << 4) | col2` on Go
`byte`s, where `col1 = ColorPaletteBinary[Pix[2*idx]]` and
`col2 = ColorPaletteBinary[Pix[2*idx+1]]`. -/
def bufByte (img : Img) (k : Nat) : Nat :=
  ((ColorPaletteBinary.getD (quantPix img (2 * k)) 0 <<< 4) % 256) |||
    ColorPaletteBinary.getD (quantPix img (2 * k + 1)) 0

/-- The packing loop of `getBuffer`: `buf := make([]byte, EPD_WIDTH*EPD_HEIGHT/2)`
filled at every `idx` with `bufByte`.  `getBuffer` only packs images of
exactly `EPD_WIDTH × EPD_HEIGHT` pixels, for which the loop over
`len(image7Color.Pix)` writes each of the `EPD_WIDTH*EPD_HEIGHT/2` buffer
cells exactly once. -/
def pack (img : Img) : List Nat :=
  List.ofFn fun k : Fin (EPD_WIDTH * EPD_HEIGHT / 2) => bufByte img k.val

/-- `getBuffer`: accept the image if its dimensions are the panel's, rotate
then pack if they are the transpose, and return `nil` (here `none`)
otherwise. -/
def getBuffer (img : Img) : Option (List Nat) :=
  if img.w = EPD_WIDTH ∧ img.h = EPD_HEIGHT then some (pack img)
  else if img.w = EPD_HEIGHT ∧ img.h = EPD_WIDTH then
    some (pack (rotateImage90 img))
  else none

/-! Command register names used by this driver (Go `byte` constants). -/

def PANEL_SETTING : Nat := 0x00
def POWER_SETTING : Nat := 0x01
def POWER_OFF : Nat := 0x02
def POWER_OFF_SEQUENCE_SETTING : Nat := 0x03
def POWER_ON : Nat := 0x04
def POWER_ON_MEASURE : Nat := 0x05
def BOOSTER_SOFT_START : Nat := 0x06
def DEEP_SLEEP : Nat := 0x07
def DATA_START_TRANSMISSION_1 : Nat := 0x10
def DISPLAY_REFRESH : Nat := 0x12
def PLL_CONTROL : Nat := 0x30
def VCOM_AND_DATA_INTERVAL_SETTING : Nat := 0x50
def TCON_SETTING : Nat := 0x60
def TCON_RESOLUTION : Nat := 0x61
def AUTO_MEASUREMENT_VCOM : Nat := 0x80
def VCM_DC_SETTING : Nat := 0x82

/-- An observable hardware interaction of the driver.  `cmd b` is
`sendCommand(b)` (one byte transmitted with DC low), `data bs` is
`sendData(bs...)` (one transmission of `bs` with DC high), `rst l` drives the
reset line, `sleepMs n` is `time.Sleep` of `n` milliseconds, and `waitIdle`
is a call to `waitUntilIdle` (which only reads the busy pin). -/
inductive Event where
  | cmd (b : Nat)
  | data (bs : List Nat)
  | rst (level : Bool)
  | sleepMs (ms : Nat)
  | waitIdle
deriving DecidableEq, Repr

/-- Whether an event is a transfer on the SPI bus (a command or data
transmission through `conn.Tx`). -/
def isBusEvent : Event → Bool
  | .cmd _ => true
  | .data _ => true
  | _ => false

/-- The bus transfers of a trace, in order. -/
def busTransfers (t : List Event) : List Event := t.filter isBusEvent

/-- `Reset`: drive the reset line high, wait 20 ms, low, 2 ms, high, 20 ms. -/
def resetTrace : List Event :=
  [.rst true, .sleepMs 20, .rst false, .sleepMs 2, .rst true, .sleepMs 20]

/-- `turnOnDisplay`: power on, wait idle, refresh, wait idle, power off,
wait idle. -/
def turnOnDisplayTrace : List Event :=
  [.cmd POWER_ON, .waitIdle,
   .cmd DISPLAY_REFRESH, .data [PANEL_SETTING], .waitIdle,
   .cmd POWER_OFF, .data [PANEL_SETTING], .waitIdle]

/-- `Init`: reset pulse, wait idle, 30 ms pause, the fixed register write
sequence (each `sendData` call carries one byte), power on, final wait
idle. -/
def initTrace : List Event :=
  resetTrace ++ [.waitIdle, .sleepMs 30] ++
  [.cmd 0xAA, .data [0x49], .data [0x55], .data [0x20], .data [0x08],
     .data [0x09], .data [0x18],
   .cmd POWER_SETTING, .data [0x3F],
   .cmd PANEL_SETTING, .data [0x5F], .data [0x69],
   .cmd POWER_OFF_SEQUENCE_SETTING, .data [0x00], .data [0x54], .data [0x00],
     .data [0x44],
   .cmd POWER_ON_MEASURE, .data [0x40], .data [0x1F], .data [0x1F],
     .data [0x2C],
   .cmd BOOSTER_SOFT_START, .data [0x6F], .data [0x1F], .data [0x17],
     .data [0x49],
   .cmd DEEP_SLEEP, .data [0x6F], .data [0x1F], .data [0x1F], .data [0x22],
   .cmd PLL_CONTROL, .data [0x03],
   .cmd VCOM_AND_DATA_INTERVAL_SETTING, .data [0x3F],
   .cmd TCON_SETTING, .data [0x02], .data [0x00],
   .cmd TCON_RESOLUTION, .data [EPD_WIDTH >>> 8], .data [EPD_WIDTH &&& 0xff],
     .data [EPD_HEIGHT >>> 8], .data [EPD_HEIGHT &&& 0xff],
   .cmd AUTO_MEASUREMENT_VCOM, .data [0x01],
   .cmd VCM_DC_SETTING, .data [0x2F],
   .cmd POWER_ON, .waitIdle]

/-- `Display`: send `DATA_START_TRANSMISSION_1`, then compute the buffer;
if `getBuffer` returned `nil`, print an error and return, otherwise send
every buffer byte as one data transmission and run `turnOnDisplay`. -/
def displayTrace (img : Img) : List Event :=
  .cmd DATA_START_TRANSMISSION_1 ::
    match getBuffer img with
    | none => []
    | some buf => buf.map (fun b => .data [b]) ++ turnOnDisplayTrace

/-- `Sleep`: send the deep-sleep command with its check byte.  The handle
records no power state: nothing in `Epd` changes. -/
def sleepTrace : List Event := [.cmd DEEP_SLEEP, .data [0xA5]]

/-- `waitUntilIdle`, polling from tick `n` (elapsed time `n * 100` ms):
the `select` first takes the 30 s timeout channel when it is ready
(`none`, modelling the `panic`), otherwise reads the busy pin — `busy n` is
`true` when the pin reads other than low, i.e. idle — returning on idle
(`some n`, the tick of the successful read) and sleeping 100 ms before the
next iteration otherwise. -/
def waitFrom (busy : Nat → Bool) (n : Nat) : Option Nat :=
  if 30000 ≤ n * 100 then none
  else if busy n then some n
  else waitFrom busy (n + 1)
termination_by 300 - n
decreasing_by omega

/-- `waitUntilIdle`: poll the busy line every 100 ms from time zero against
a 30 s timeout. -/
def waitUntilIdle (busy : Nat → Bool) : Option Nat := waitFrom busy 0

/-- The `imageTemp` selection inside `getBuffer`: the image that is actually
quantized and packed when the input is accepted — the input itself in direct
orientation, its clockwise rotation in transposed orientation. -/
def imageTemp (img : Img) : Img :=
  if img.w = EPD_WIDTH ∧ img.h = EPD_HEIGHT then img else rotateImage90 img

/-- An all-white panel-sized test bitmap. -/
def whiteImg : Img := ⟨800, 480, fun _ _ => ColorWhite⟩

/-- A panel-sized test bitmap whose first pixel is blue and all others are
green: its first two palette indices are 4 and 5. -/
def blueGreenImg : Img :=
  ⟨800, 480, fun x _ => if x = 0 then ColorBlue else ColorGreen⟩

/-- A panel-sized test bitmap whose first four pixels are black, white,
yellow, red: its first four palette indices are 0, 1, 2, 3. -/
def indexSampleImg : Img :=
  ⟨800, 480, fun x _ =>
    if x = 0 then ColorBlack
    else if x = 1 then ColorWhite
    else if x = 2 then ColorYellow
    else ColorRed⟩

/-- A test bitmap whose dimensions match neither the panel geometry nor its
transpose. -/
def badDimsImg : Img := ⟨100, 100, fun _ _ => ColorBlack⟩

/-- A transposed-size (480 × 800) test bitmap. -/
def transposedImg : Img :=
  ⟨480, 800, fun x y => if x = y then ColorRed else ColorWhite⟩

/-! ## Helper lemmas -/

/-- The index search never leaves the palette: starting at position `i` with
a best index below `i + l.length`, the result stays below `i + l.length`. -/
theorem indexFrom_lt (c : RGBA) :
    ∀ (l : List RGBA) (i ret best : Nat), ret < i + l.length →
      indexFrom c l i ret best < i + l.length := by
  intro l
  induction l with
  | nil => intro i ret best h; simpa [indexFrom] using h
  | cons v rest ih =>
    intro i ret best h
    simp only [indexFrom]
    split_ifs with h1 h2
    · simp only [List.length_cons]
      omega
    · have := ih (i + 1) i (colorSum c v) (by omega)
      simp only [List.length_cons] at this ⊢
      omega
    · have := ih (i + 1) ret best
        (by simp only [List.length_cons] at h; omega)
      simp only [List.length_cons] at this ⊢
      omega

/-- Every palette lookup is a valid index into the six-entry palette. -/
theorem paletteIndex_lt (c : RGBA) : paletteIndex ColorPalette c < 6 := by
  have := indexFrom_lt c ColorPalette 0 0 (2 ^ 32 - 1) (by simp [ColorPalette])
  simpa [paletteIndex, ColorPalette] using this

/-- Quantized pixel values are always valid palette indices. -/
theorem quantPix_lt (img : Img) (i : Nat) : quantPix img i < 6 :=
  paletteIndex_lt _

/-- A color already in the palette is mapped to its own index. -/
theorem paletteIndex_self :
    ∀ i : Fin ColorPalette.length,
      paletteIndex ColorPalette (ColorPalette.get i) = i.val := by
  decide

/-- All on-wire codes are at most 6 (out-of-range lookups default to 0). -/
theorem codeD_le (i : Nat) : ColorPaletteBinary.getD i 0 ≤ 6 := by
  match i with
  | 0 => decide
  | 1 => decide
  | 2 => decide
  | 3 => decide
  | 4 => decide
  | 5 => decide
  | n + 6 =>
    rw [List.getD_eq_default]
    · omega
    · simp [ColorPaletteBinary]

/-- Bounded nibble packing is plain arithmetic:
`(a << 4 | b) = 16 * a + b` when both halves fit in a nibble. -/
theorem shl4_or_eq (a b : Nat) (ha : a < 16) (hb : b < 16) :
    ((a <<< 4) % 256) ||| b = 16 * a + b := by
  have key : ∀ x y : Fin 16, ((x.val <<< 4) % 256) ||| y.val =
      16 * x.val + y.val := by decide
  exact key ⟨a, ha⟩ ⟨b, hb⟩

/-- Splitting a packed byte back into nibbles. -/
theorem nibbles_of_packed (a b : Nat) (ha : a < 16) (hb : b < 16) :
    (16 * a + b) >>> 4 = a ∧ (16 * a + b) &&& 15 = b := by
  have key : ∀ x y : Fin 16, (16 * x.val + y.val) >>> 4 = x.val ∧
      (16 * x.val + y.val) &&& 15 = y.val := by decide
  exact key ⟨a, ha⟩ ⟨b, hb⟩

/-- A packed byte, in arithmetic form. -/
theorem bufByte_eq (img : Img) (k : Nat) :
    bufByte img k =
      16 * ColorPaletteBinary.getD (quantPix img (2 * k)) 0 +
        ColorPaletteBinary.getD (quantPix img (2 * k + 1)) 0 := by
  unfold bufByte
  exact shl4_or_eq _ _ (by have := codeD_le (quantPix img (2 * k)); omega)
    (by have := codeD_le (quantPix img (2 * k + 1)); omega)

/-- Indexing into the packed buffer. -/
theorem pack_getElem? (img : Img) (k : Nat)
    (hk : k < EPD_WIDTH * EPD_HEIGHT / 2) :
    (pack img)[k]? = some (bufByte img k) := by
  unfold pack
  rw [List.getElem?_ofFn]
  simp [List.ofFnNthVal, hk]

/-- On accepted input, `getBuffer` packs the oriented image. -/
theorem getBuffer_eq_pack (img : Img)
    (h : (img.w = EPD_WIDTH ∧ img.h = EPD_HEIGHT) ∨
      (img.w = EPD_HEIGHT ∧ img.h = EPD_WIDTH)) :
    getBuffer img = some (pack (imageTemp img)) := by
  rcases h with ⟨h1, h2⟩ | ⟨h1, h2⟩
  · simp [getBuffer, imageTemp, h1, h2]
  · have hc : ¬(EPD_HEIGHT = EPD_WIDTH ∧ EPD_WIDTH = EPD_HEIGHT) := by decide
    simp [getBuffer, imageTemp, h1, h2, hc]

/-- A busy line that never reads idle drives every poll into the timeout. -/
theorem waitFrom_never (busy : Nat → Bool) (hb : ∀ m, busy m = false) :
    ∀ k n, 300 ≤ n + k → waitFrom busy n = none := by
  intro k
  induction k with
  | zero =>
    intro n hn
    rw [waitFrom]
    have h : 30000 ≤ n * 100 := by omega
    simp [h]
  | succ k ih =>
    intro n hn
    rw [waitFrom]
    by_cases h : 30000 ≤ n * 100
    · simp [h]
    · simp [h, hb n]
      exact ih (n + 1) (by omega)

/-- If the busy line first reads idle at tick `t` and `t` is inside the
timeout window, the poll loop started at `n ≤ t` returns at exactly `t`. -/
theorem waitFrom_first (busy : Nat → Bool) (t : Nat) (ht : busy t = true)
    (htime : t * 100 < 30000) :
    ∀ d n, t = n + d → (∀ m, n ≤ m → m < t → busy m = false) →
      waitFrom busy n = some t := by
  intro d
  induction d with
  | zero =>
    intro n heq _
    rw [waitFrom]
    have h1 : ¬30000 ≤ n * 100 := by omega
    have h2 : busy n = true := by rw [show n = t by omega]; exact ht
    simp [h1, h2]
    omega
  | succ d ih =>
    intro n heq hfirst
    rw [waitFrom]
    have h1 : ¬30000 ≤ n * 100 := by omega
    have h2 : busy n = false := hfirst n le_rfl (by omega)
    simp [h1, h2]
    exact ih (n + 1) (by omega) (fun m hm1 hm2 => hfirst m (by omega) hm2)

/-- A successful poll result really observed an idle reading inside the
timeout window, no earlier than the starting tick. -/
theorem waitFrom_inv (busy : Nat → Bool) :
    ∀ k n t, 300 ≤ n + k → waitFrom busy n = some t →
      busy t = true ∧ t * 100 < 30000 ∧ n ≤ t := by
  intro k
  induction k with
  | zero =>
    intro n t hn h
    rw [waitFrom] at h
    have h1 : 30000 ≤ n * 100 := by omega
    simp [h1] at h
  | succ k ih =>
    intro n t hn h
    rw [waitFrom] at h
    by_cases h1 : 30000 ≤ n * 100
    · simp [h1] at h
    · by_cases h2 : busy n = true
      · simp [h1, h2] at h
        refine ⟨by rwa [← h], by omega, by omega⟩
      · rw [Bool.not_eq_true] at h2
        simp [h1, h2] at h
        obtain ⟨hb, htl, hle⟩ := ih (n + 1) t (by omega) h
        exact ⟨hb, htl, by omega⟩

/-- For accepted input, the packed image has exactly the panel geometry. -/
theorem imageTemp_dims (img : Img)
    (h : (img.w = EPD_WIDTH ∧ img.h = EPD_HEIGHT) ∨
      (img.w = EPD_HEIGHT ∧ img.h = EPD_WIDTH)) :
    (imageTemp img).w = EPD_WIDTH ∧ (imageTemp img).h = EPD_HEIGHT := by
  rcases h with ⟨h1, h2⟩ | ⟨h1, h2⟩
  · simp [imageTemp, h1, h2]
  · have hc : ¬(EPD_HEIGHT = EPD_WIDTH ∧ EPD_WIDTH = EPD_HEIGHT) := by decide
    simp [imageTemp, rotateImage90, h1, h2, hc]

/-! ## Claims -/

/-- C1: for every bitmap whose dimensions equal the panel's 800×480 or its
transpose 480×800, the encoder `getBuffer` returns a packed buffer of
exactly width×height/2 = 192000 bytes. -/
theorem C1_getBuffer_length (img : Img)
    (h : (img.w = EPD_WIDTH ∧ img.h = EPD_HEIGHT) ∨
      (img.w = EPD_HEIGHT ∧ img.h = EPD_WIDTH)) :
    (getBuffer img).map List.length = some (img.w * img.h / 2) ∧
      img.w * img.h / 2 = 192000 := by
  have hwh : img.w * img.h / 2 = 192000 := by
    rcases h with ⟨h1, h2⟩ | ⟨h1, h2⟩ <;> rw [h1, h2] <;> decide
  refine ⟨?_, hwh⟩
  rw [getBuffer_eq_pack img h, hwh]
  simp only [Option.map_some', pack, List.length_ofFn]
  decide

/-- C1 witness: an all-white 800×480 bitmap encodes to 192000 bytes. -/
theorem C1_witness : (getBuffer whiteImg).map List.length = some 192000 := by
  have h := C1_getBuffer_length whiteImg (Or.inl ⟨rfl, rfl⟩)
  have h1 := h.1
  rw [h.2] at h1
  exact h1

/-- C3 counterexample: `Display` on a bitmap of invalid dimensions (100×100)
still transfers the `DATA_START_TRANSMISSION_1` command byte on the bus
before rejecting the input, so the recorded bus trace of the call is not
empty, contrary to the claim that no command byte is transferred. -/
theorem C3_counterexample :
    busTransfers (displayTrace badDimsImg) =
      [Event.cmd DATA_START_TRANSMISSION_1] ∧
    busTransfers (displayTrace badDimsImg) ≠ [] := by
  constructor <;> decide

/-- C3 (amended): when the bitmap dimensions match neither the panel
geometry nor its transpose, `Display` rejects the input before transferring
any data byte of the image and before the refresh sequence, but only after
having already sent the single `DATA_START_TRANSMISSION_1` command byte: its
whole trace is that one command. -/
theorem C3_reject_after_command (img : Img)
    (h : ¬((img.w = EPD_WIDTH ∧ img.h = EPD_HEIGHT) ∨
      (img.w = EPD_HEIGHT ∧ img.h = EPD_WIDTH))) :
    displayTrace img = [Event.cmd DATA_START_TRANSMISSION_1] := by
  have hnot := not_or.mp h
  have hb : getBuffer img = none := by
    unfold getBuffer
    rw [if_neg hnot.1, if_neg hnot.2]
  simp [displayTrace, hb]

/-- C3 witness: at the 100×100 bitmap, the trace is the lone command. -/
theorem C3_witness :
    displayTrace badDimsImg = [Event.cmd DATA_START_TRANSMISSION_1] :=
  C3_reject_after_command badDimsImg (by decide)

/-- C4 counterexample: the driver keeps no power state — `Sleep` only sends
the deep-sleep command and check byte and records nothing in the handle —
and a subsequent `Display` call on a valid bitmap does not fail: it starts
by transferring the `DATA_START_TRANSMISSION_1` command byte, so its bus
trace is nonempty, contrary to the claimed zero transfers. -/
theorem C4_counterexample :
    sleepTrace = [Event.cmd DEEP_SLEEP, Event.data [0xA5]] ∧
    (displayTrace whiteImg).head? = some (Event.cmd DATA_START_TRANSMISSION_1) ∧
    busTransfers (displayTrace whiteImg) ≠ [] := by
  refine ⟨rfl, rfl, ?_⟩
  have hmem : Event.cmd DATA_START_TRANSMISSION_1 ∈ displayTrace whiteImg := by
    simp [displayTrace]
  have hmem2 : Event.cmd DATA_START_TRANSMISSION_1 ∈
      busTransfers (displayTrace whiteImg) :=
    List.mem_filter.mpr ⟨hmem, rfl⟩
  intro hcontra
  simp [hcontra] at hmem2

/-- C4 (amended): no `Sleeping` state exists in the driver and `display()`
is never rejected: for every bitmap — hence in every call context, including
immediately after `sleep()` — the call begins by transferring the
`DATA_START_TRANSMISSION_1` command byte, so it never performs zero bus
transfers and returns no usage-sequence error. -/
theorem C4_display_always_transfers (img : Img) :
    (displayTrace img).head? = some (Event.cmd DATA_START_TRANSMISSION_1) ∧
    busTransfers (displayTrace img) ≠ [] := by
  refine ⟨rfl, ?_⟩
  have hmem : Event.cmd DATA_START_TRANSMISSION_1 ∈ displayTrace img := by
    simp [displayTrace]
  have hmem2 : Event.cmd DATA_START_TRANSMISSION_1 ∈
      busTransfers (displayTrace img) :=
    List.mem_filter.mpr ⟨hmem, rfl⟩
  intro hcontra
  simp [hcontra] at hmem2

/-- C5: the busy wait terminates for every busy-line behavior.  Time is
modelled in ticks of the fixed 100 ms poll interval: `waitUntilIdle` returns
at the first tick at which the line reads logically idle when that tick lies
inside the 30 s window; when the line never reads idle it returns the
timeout failure (the Go `panic`) instead of looping forever; and every
successful return observed an idle reading within the window. -/
theorem C5_waitUntilIdle_spec (busy : Nat → Bool) :
    ((∀ m, busy m = false) → waitUntilIdle busy = none) ∧
    (∀ t, busy t = true → (∀ m, m < t → busy m = false) → t * 100 < 30000 →
      waitUntilIdle busy = some t) ∧
    (∀ t, waitUntilIdle busy = some t → busy t = true ∧ t * 100 < 30000) := by
  refine ⟨fun hb => waitFrom_never busy hb 300 0 (by omega),
    fun t ht hf htime => waitFrom_first busy t ht htime t 0 (by omega)
      (fun m _ hm => hf m hm),
    fun t h => ?_⟩
  have hinv := waitFrom_inv busy 300 0 t (by omega) h
  exact ⟨hinv.1, hinv.2.1⟩

/-- C5 witness: a line that becomes idle at tick 2 is detected at tick 2. -/
theorem C5_witness : waitUntilIdle (fun n => decide (2 ≤ n)) = some 2 :=
  (C5_waitUntilIdle_spec (fun n => decide (2 ≤ n))).2.1 2 (by decide)
    (fun m hm => by simp only [decide_eq_false_iff_not]; omega) (by decide)

/-- C6: `Init` performs, in this fixed order: the hardware reset pulse
(reset high, wait 20 ms ≥ 20 ms, low, wait 2 ms ≥ 2 ms, high, wait
20 ms ≥ 20 ms), a wait-idle, the fixed command/parameter-block sequence in
which the resolution register `TCON_RESOLUTION = 0x61` receives the panel
width then height each as a big-endian 16-bit value split into high byte
then low byte (`0x03 0x20` with 3·256+32 = 800 and `0x01 0xE0` with
1·256+224 = 480), then `POWER_ON = 0x04`, then a final wait-idle. -/
theorem C6_init_sequence :
    initTrace =
      [.rst true, .sleepMs 20, .rst false, .sleepMs 2, .rst true, .sleepMs 20,
       .waitIdle, .sleepMs 30,
       .cmd 0xAA, .data [0x49], .data [0x55], .data [0x20], .data [0x08],
         .data [0x09], .data [0x18],
       .cmd 0x01, .data [0x3F],
       .cmd 0x00, .data [0x5F], .data [0x69],
       .cmd 0x03, .data [0x00], .data [0x54], .data [0x00], .data [0x44],
       .cmd 0x05, .data [0x40], .data [0x1F], .data [0x1F], .data [0x2C],
       .cmd 0x06, .data [0x6F], .data [0x1F], .data [0x17], .data [0x49],
       .cmd 0x07, .data [0x6F], .data [0x1F], .data [0x1F], .data [0x22],
       .cmd 0x30, .data [0x03],
       .cmd 0x50, .data [0x3F],
       .cmd 0x60, .data [0x02], .data [0x00],
       .cmd 0x61, .data [0x03], .data [0x20], .data [0x01], .data [0xE0],
       .cmd 0x80, .data [0x01],
       .cmd 0x82, .data [0x2F],
       .cmd 0x04, .waitIdle] ∧
    0x03 * 256 + 0x20 = EPD_WIDTH ∧ 0x01 * 256 + 0xE0 = EPD_HEIGHT := by
  refine ⟨by decide, by decide, by decide⟩

/-- C2 counterexample: the pixels at positions 0 and 1 of `blueGreenImg`
quantize to palette indices 4 (blue) and 5 (green), yet the first emitted
byte of the encoding is 0x56 — the pair of on-wire codes — and not
`(4 << 4) | 5 = 0x45` as the claim's formula `(first_index << 4) |
second_index` states. -/
theorem C2_counterexample :
    quantPix (imageTemp blueGreenImg) 0 = 4 ∧
    quantPix (imageTemp blueGreenImg) 1 = 5 ∧
    (getBuffer blueGreenImg).bind (fun buf => buf[0]?) = some 0x56 ∧
    (0x56 : Nat) ≠ (4 <<< 4) ||| 5 := by
  refine ⟨by decide, by decide, ?_, by decide⟩
  rw [getBuffer_eq_pack blueGreenImg (Or.inl ⟨rfl, rfl⟩), Option.some_bind,
    pack_getElem? _ 0 (by decide)]
  decide

/-- C2 (amended): the encoder consumes palette indices two at a time in
row-major order, but the byte emitted for each pair is
`(ColorPaletteBinary[first] << 4) | ColorPaletteBinary[second]`, built from
the on-wire code table `[0,1,2,3,5,6]` rather than from the raw indices;
since that table is the identity on indices 0–3, an image whose pixels
quantize to `[0,1,2,3]` still encodes to the two bytes 0x01, 0x23. -/
theorem C2_pack_codes (img : Img)
    (h : (img.w = EPD_WIDTH ∧ img.h = EPD_HEIGHT) ∨
      (img.w = EPD_HEIGHT ∧ img.h = EPD_WIDTH))
    (k : Nat) (hk : k < EPD_WIDTH * EPD_HEIGHT / 2) :
    ∃ buf, getBuffer img = some buf ∧
      buf[k]? = some
        (16 * ColorPaletteBinary.getD (quantPix (imageTemp img) (2 * k)) 0 +
          ColorPaletteBinary.getD (quantPix (imageTemp img) (2 * k + 1)) 0) ∧
      (∀ j, j ≤ 3 → ColorPaletteBinary.getD j 0 = j) := by
  refine ⟨pack (imageTemp img), getBuffer_eq_pack img h, ?_, ?_⟩
  · rw [pack_getElem? _ k hk, bufByte_eq]
  · intro j hj
    interval_cases j <;> decide

/-- C2 witness: the first four pixels of `indexSampleImg` quantize to
indices 0, 1, 2, 3 and its first two encoded bytes are 0x01 and 0x23. -/
theorem C2_witness :
    quantPix (imageTemp indexSampleImg) 0 = 0 ∧
    quantPix (imageTemp indexSampleImg) 1 = 1 ∧
    quantPix (imageTemp indexSampleImg) 2 = 2 ∧
    quantPix (imageTemp indexSampleImg) 3 = 3 ∧
    ∃ buf, getBuffer indexSampleImg = some buf ∧
      buf[0]? = some 0x01 ∧ buf[1]? = some 0x23 := by
  refine ⟨by decide, by decide, by decide, by decide, ?_⟩
  obtain ⟨buf, hbuf, h0, _⟩ :=
    C2_pack_codes indexSampleImg (Or.inl ⟨rfl, rfl⟩) 0 (by decide)
  obtain ⟨buf2, hbuf2, h1, _⟩ :=
    C2_pack_codes indexSampleImg (Or.inl ⟨rfl, rfl⟩) 1 (by decide)
  have heq : buf2 = buf := by
    rw [hbuf] at hbuf2
    exact (Option.some.inj hbuf2).symm
  rw [heq] at h1
  refine ⟨buf, hbuf, by rw [h0]; decide, by rw [h1]; decide⟩

/-- C7: a pixel whose color exactly equals one of the six palette colors
quantizes to that exact palette entry, never to a different one. -/
theorem C7_quantize_exact (img : Img) (x y i : Nat) (hx : x < img.w)
    (hy : y < img.h) (hi : i < ColorPalette.length)
    (hpix : img.pix x y = ColorPalette.get ⟨i, hi⟩) :
    quantPix img (y * img.w + x) = i := by
  unfold quantPix
  have hx2 : (y * img.w + x) % img.w = x := by
    rw [Nat.mul_comm, Nat.mul_add_mod]
    exact Nat.mod_eq_of_lt hx
  have hy2 : (y * img.w + x) / img.w = y := by
    rw [Nat.mul_comm y img.w, Nat.mul_add_div (by omega), Nat.div_eq_of_lt hx]
    omega
  rw [hx2, hy2, hpix]
  exact paletteIndex_self ⟨i, hi⟩

/-- C7 witness: the white pixel at (0, 0) of `whiteImg` quantizes to the
white palette entry, index 1. -/
theorem C7_witness : quantPix whiteImg (0 * whiteImg.w + 0) = 1 :=
  C7_quantize_exact whiteImg 0 0 1 (by decide) (by decide) (by decide) rfl

/-- C8: for every transposed-size (480×800) bitmap, the encoder — which
rotates it 90° clockwise before packing — produces the same buffer as
encoding the direct-size (800×480) bitmap obtained by pre-rotating it 90°
clockwise. -/
theorem C8_rotate_equiv (img : Img) (h1 : img.w = EPD_HEIGHT)
    (h2 : img.h = EPD_WIDTH) :
    getBuffer img = getBuffer (rotateImage90 img) := by
  have hc : ¬(EPD_HEIGHT = EPD_WIDTH ∧ EPD_WIDTH = EPD_HEIGHT) := by decide
  simp [getBuffer, rotateImage90, h1, h2, hc]

/-- C8 witness: at a concrete 480×800 bitmap. -/
theorem C8_witness :
    getBuffer transposedImg = getBuffer (rotateImage90 transposedImg) :=
  C8_rotate_equiv transposedImg rfl rfl

/-- C9 counterexample: the first pixel of `blueGreenImg` has palette index
4, but the high nibble of the first produced byte is 5 (blue's on-wire
code), so splitting the byte into nibbles does not reproduce the original
palette index pair. -/
theorem C9_counterexample :
    quantPix (imageTemp blueGreenImg) 0 = 4 ∧
    (getBuffer blueGreenImg).bind (fun buf => buf[0]?.map (· >>> 4)) =
      some 5 ∧
    (5 : Nat) ≠ 4 := by
  refine ⟨by decide, ?_, by decide⟩
  rw [getBuffer_eq_pack blueGreenImg (Or.inl ⟨rfl, rfl⟩), Option.some_bind,
    pack_getElem? _ 0 (by decide)]
  decide

/-- C9 (amended): packing is order-preserving and reversible at the level
of on-wire codes: every produced byte splits into a high nibble equal to
the code of the pair's first palette index and a low nibble equal to the
code of the second, and the code table is injective on valid indices, so
the original index pair is recoverable from every byte. -/
theorem C9_unpack (img : Img)
    (h : (img.w = EPD_WIDTH ∧ img.h = EPD_HEIGHT) ∨
      (img.w = EPD_HEIGHT ∧ img.h = EPD_WIDTH))
    (k : Nat) (hk : k < EPD_WIDTH * EPD_HEIGHT / 2) :
    ∃ buf, getBuffer img = some buf ∧ ∃ b, buf[k]? = some b ∧
      b >>> 4 = ColorPaletteBinary.getD (quantPix (imageTemp img) (2 * k)) 0 ∧
      b &&& 15 =
        ColorPaletteBinary.getD (quantPix (imageTemp img) (2 * k + 1)) 0 ∧
      (∀ i j, i < 6 → j < 6 →
        ColorPaletteBinary.getD i 0 = ColorPaletteBinary.getD j 0 → i = j) := by
  have ha := codeD_le (quantPix (imageTemp img) (2 * k))
  have hb := codeD_le (quantPix (imageTemp img) (2 * k + 1))
  refine ⟨pack (imageTemp img), getBuffer_eq_pack img h,
    bufByte (imageTemp img) k, pack_getElem? _ k hk, ?_, ?_, ?_⟩
  · rw [bufByte_eq]
    exact (nibbles_of_packed _ _ (by omega) (by omega)).1
  · rw [bufByte_eq]
    exact (nibbles_of_packed _ _ (by omega) (by omega)).2
  · have key : ∀ i j : Fin 6,
        ColorPaletteBinary.getD i.val 0 = ColorPaletteBinary.getD j.val 0 →
          i = j := by decide
    intro i j hi hj heq
    have := key ⟨i, hi⟩ ⟨j, hj⟩ heq
    simpa using congrArg Fin.val this

/-- C9 witness: the first byte of the all-white encoding is 0x11, whose
nibbles are both white's code 1. -/
theorem C9_witness :
    ∃ buf, getBuffer whiteImg = some buf ∧
      ∃ b, buf[0]? = some b ∧ b >>> 4 = 1 ∧ b &&& 15 = 1 := by
  obtain ⟨buf, hbuf, b, hb, hhi, hlo, _⟩ :=
    C9_unpack whiteImg (Or.inl ⟨rfl, rfl⟩) 0 (by decide)
  refine ⟨buf, hbuf, b, hb, ?_, ?_⟩
  · rw [hhi]; decide
  · rw [hlo]; decide

/-- C10: for accepted bitmaps the packing loop never indexes out of bounds:
the quantized image holds only palette indices strictly below 6, the
on-wire code table has length 6 (as does the palette), the packed image has
exactly twice as many pixels as the buffer has cells — in particular an
even count — so `Pix[i+1]` and both `ColorPaletteBinary` lookups are always
defined. -/
theorem C10_pack_safety (img : Img)
    (h : (img.w = EPD_WIDTH ∧ img.h = EPD_HEIGHT) ∨
      (img.w = EPD_HEIGHT ∧ img.h = EPD_WIDTH)) :
    ColorPalette.length = 6 ∧ ColorPaletteBinary.length = 6 ∧
    (∀ i, quantPix (imageTemp img) i < 6) ∧
    (imageTemp img).w * (imageTemp img).h = 2 * (EPD_WIDTH * EPD_HEIGHT / 2) ∧
    ((imageTemp img).w * (imageTemp img).h) % 2 = 0 ∧
    (∀ k, k < EPD_WIDTH * EPD_HEIGHT / 2 →
      2 * k + 1 < (imageTemp img).w * (imageTemp img).h) := by
  obtain ⟨hw, hh⟩ := imageTemp_dims img h
  have hprod : (imageTemp img).w * (imageTemp img).h = 384000 := by
    rw [hw, hh]
    decide
  refine ⟨rfl, rfl, fun i => quantPix_lt _ i, ?_, ?_, ?_⟩
  · rw [hprod]; decide
  · rw [hprod]
  · intro k hk
    rw [hprod]
    have : EPD_WIDTH * EPD_HEIGHT / 2 = 192000 := by decide
    omega

/-- C10 witness: at the all-white 800×480 bitmap. -/
theorem C10_witness :
    ColorPaletteBinary.length = 6 ∧
    quantPix (imageTemp whiteImg) 383999 < 6 ∧
    ((imageTemp whiteImg).w * (imageTemp whiteImg).h) % 2 = 0 := by
  have h := C10_pack_safety whiteImg (Or.inl ⟨rfl, rfl⟩)
  exact ⟨h.2.1, h.2.2.1 383999, h.2.2.2.2.1⟩

end Epd7in5
